import Mathlib

/-!
Verification of the BLAKE3 FPGA hashing core (`src/include/blake3.hpp`).

The development shallowly embeds the C++/SYCL source: 32-bit machine words
become `Nat` with explicit `% 2^32` wherever the hardware wraps, the
`sycl::uint4` vector rows become a four-field structure, the two dataflow
kernels become pure functions over explicit request/response streams, and
the device scratch buffer becomes an explicit write trace.  Definitions are
transcribed from the source; definitions transcribed from the specification
text (for refinement comparisons) are clearly named `spec...`.
-/

namespace Blake3

/-- Modulus of a 32-bit machine word. -/
def M32 : Nat := 4294967296

/-- Initial hash values, from `IV` in the source. -/
def IV : List Nat :=
  [0x6A09E667, 0xBB67AE85, 0x3C6EF372, 0xA54FF53A,
   0x510E527F, 0x9B05688C, 0x1F83D9AB, 0x5BE0CD19]

/-- Message-word permutation table, from `MSG_PERMUTATION` in the source. -/
def MSG_PERMUTATION : List Nat := [2, 6, 3, 10, 7, 0, 4, 13, 1, 11, 12, 5, 9, 14, 15, 8]

/-- Bytes per chunk, from `CHUNK_LEN`. -/
def CHUNK_LEN : Nat := 1024

/-- Digest length in bytes, from `OUT_LEN`. -/
def OUT_LEN : Nat := 32

/-- Bytes per message block, from `BLOCK_LEN`. -/
def BLOCK_LEN : Nat := 64

/-- Flag carried by the first block of a chunk, from `CHUNK_START`. -/
def CHUNK_START : Nat := 1

/-- Flag carried by the last block of a chunk, from `CHUNK_END`. -/
def CHUNK_END : Nat := 2

/-- Flag carried by parent-node compressions, from `PARENT`. -/
def PARENT : Nat := 4

/-- Flag carried by the root compression, from `ROOT`. -/
def ROOT : Nat := 8

/-- Wrapping 32-bit addition: C++ `uint32_t` addition. -/
def wadd (a b : Nat) : Nat := (a + b) % M32

/-- Left rotation of a 32-bit word by `n` bits: `sycl::rotate(x, n)` on one
lane, i.e. `(x << n) | (x >> (32 - n))` with wrapping. -/
def rotl32 (x n : Nat) : Nat := ((x <<< n) ||| (x >>> (32 - n))) % M32

/-- Right rotation of a 32-bit word by `n` bits, as the specification writes
it: `(w >> n) | (w << (32 - n))` using wrapping arithmetic. -/
def rotr32 (x n : Nat) : Nat := (x >>> n) ||| ((x <<< (32 - n)) % M32)

/-- One `sycl::uint4` vector: four 32-bit lanes. -/
structure V4 where
  x : Nat
  y : Nat
  z : Nat
  w : Nat
deriving Repr, DecidableEq

/-- Lane-wise wrapping addition of two `uint4` values. -/
def vadd (a b : V4) : V4 := ⟨wadd a.x b.x, wadd a.y b.y, wadd a.z b.z, wadd a.w b.w⟩

/-- Lane-wise XOR of two `uint4` values. -/
def vxor (a b : V4) : V4 := ⟨a.x ^^^ b.x, a.y ^^^ b.y, a.z ^^^ b.z, a.w ^^^ b.w⟩

/-- Lane-wise left rotation of a `uint4` by `n` bits, `sycl::rotate`. -/
def vrot (a : V4) (n : Nat) : V4 := ⟨rotl32 a.x n, rotl32 a.y n, rotl32 a.z n, rotl32 a.w n⟩

/-- Swizzle `.yzwx()` of a `uint4`. -/
def yzwx (v : V4) : V4 := ⟨v.y, v.z, v.w, v.x⟩

/-- Swizzle `.zwxy()` of a `uint4`. -/
def zwxy (v : V4) : V4 := ⟨v.z, v.w, v.x, v.y⟩

/-- Swizzle `.wxyz()` of a `uint4`. -/
def wxyz (v : V4) : V4 := ⟨v.w, v.x, v.y, v.z⟩

/-- The 16-word hash state as the source holds it: four `uint4` rows in
row-major order (`state[0]` = words 0..3, ..., `state[3]` = words 12..15). -/
structure St where
  r0 : V4
  r1 : V4
  r2 : V4
  r3 : V4
deriving Repr, DecidableEq

/-- Sixteen 32-bit message words of one 64-byte block. -/
structure M16 where
  m0 : Nat
  m1 : Nat
  m2 : Nat
  m3 : Nat
  m4 : Nat
  m5 : Nat
  m6 : Nat
  m7 : Nat
  m8 : Nat
  m9 : Nat
  m10 : Nat
  m11 : Nat
  m12 : Nat
  m13 : Nat
  m14 : Nat
  m15 : Nat
deriving Repr, DecidableEq

/-- Vectorised BLAKE3 round, transcribed statement-for-statement from `rnd`
in the source.  The rotation constants 16, 20, 24, 25 are the source's
`rrot_16`, `rrot_12`, `rrot_8`, `rrot_7` left-rotation amounts. -/
def rnd (s : St) (m : M16) : St :=
  let mx : V4 := ⟨m.m0, m.m2, m.m4, m.m6⟩
  let my : V4 := ⟨m.m1, m.m3, m.m5, m.m7⟩
  let mz : V4 := ⟨m.m8, m.m10, m.m12, m.m14⟩
  let mw : V4 := ⟨m.m9, m.m11, m.m13, m.m15⟩
  -- column-wise mixing
  let s0 := vadd (vadd s.r0 s.r1) mx
  let s3 := vrot (vxor s.r3 s0) 16
  let s2 := vadd s.r2 s3
  let s1 := vrot (vxor s.r1 s2) 20
  let s0 := vadd (vadd s0 s1) my
  let s3 := vrot (vxor s3 s0) 24
  let s2 := vadd s2 s3
  let s1 := vrot (vxor s1 s2) 25
  -- diagonalize
  let s1 := yzwx s1
  let s2 := zwxy s2
  let s3 := wxyz s3
  -- diagonal mixing
  let s0 := vadd (vadd s0 s1) mz
  let s3 := vrot (vxor s3 s0) 16
  let s2 := vadd s2 s3
  let s1 := vrot (vxor s1 s2) 20
  let s0 := vadd (vadd s0 s1) mw
  let s3 := vrot (vxor s3 s0) 24
  let s2 := vadd s2 s3
  let s1 := vrot (vxor s1 s2) 25
  -- un-diagonalize
  let s1 := wxyz s1
  let s2 := zwxy s2
  let s3 := yzwx s3
  ⟨s0, s1, s2, s3⟩

/-- Message-word permutation, from `permute` in the source: entry `i` of the
result is entry `MSG_PERMUTATION[i]` of the argument (table
`[2, 6, 3, 10, 7, 0, 4, 13, 1, 11, 12, 5, 9, 14, 15, 8]`, unrolled). -/
def permuteM (m : M16) : M16 :=
  ⟨m.m2, m.m6, m.m3, m.m10, m.m7, m.m0, m.m4, m.m13,
   m.m1, m.m11, m.m12, m.m5, m.m9, m.m14, m.m15, m.m8⟩

/-- BLAKE3 compression transcribed from `compress` in the source: seven
rounds with a message permutation after each of the first six, then the
first two state rows are XORed with the last two (word `i` with word
`i + 8`).  The source mutates the caller's message words in place, so the
final message contents are returned alongside the state. -/
def compress (s : St) (m : M16) : St × M16 :=
  -- round 1
  let s := rnd s m
  let m := permuteM m
  -- round 2
  let s := rnd s m
  let m := permuteM m
  -- round 3
  let s := rnd s m
  let m := permuteM m
  -- round 4
  let s := rnd s m
  let m := permuteM m
  -- round 5
  let s := rnd s m
  let m := permuteM m
  -- round 6
  let s := rnd s m
  let m := permuteM m
  -- round 7, no permutation afterwards
  let s := rnd s m
  (⟨vxor s.r0 s.r2, vxor s.r1 s.r3, s.r2, s.r3⟩, m)

/-- One mixing round followed by the message permutation, the step that
`compress` repeats on its state/message pair before the final round. -/
def roundStep (p : St × M16) : St × M16 := (rnd p.1 p.2, permuteM p.2)

/-- Result of one quarter-round: the four updated words. -/
structure Quad where
  qa : Nat
  qb : Nat
  qc : Nat
  qd : Nat
deriving Repr, DecidableEq

/-- One lane of the source's vectorised mixing: the operation sequence of
`rnd` restricted to a single `uint4` lane, with the source's left-rotation
amounts 16, 20, 24, 25. -/
def gcode (a b c d mx my : Nat) : Quad :=
  let a := wadd (wadd a b) mx
  let d := rotl32 (d ^^^ a) 16
  let c := wadd c d
  let b := rotl32 (b ^^^ c) 20
  let a := wadd (wadd a b) my
  let d := rotl32 (d ^^^ a) 24
  let c := wadd c d
  let b := rotl32 (b ^^^ c) 25
  ⟨a, b, c, d⟩

/-- Straight-line form of the specification's `G` mixing function on four
words, with right rotations 16, 12, 8, 7. -/
def g4 (a b c d mx my : Nat) : Quad :=
  let a := wadd (wadd a b) mx
  let d := rotr32 (d ^^^ a) 16
  let c := wadd c d
  let b := rotr32 (b ^^^ c) 12
  let a := wadd (wadd a b) my
  let d := rotr32 (d ^^^ a) 8
  let c := wadd c d
  let b := rotr32 (b ^^^ c) 7
  ⟨a, b, c, d⟩

/-- The round of `rnd` factored into eight quarter-round instances: four
column mixes (one per lane), the diagonalisation realised as the argument
wiring of four diagonal mixes, and the un-diagonalisation realised as the
result wiring. -/
def wireRoundWith (g : Nat → Nat → Nat → Nat → Nat → Nat → Quad) (s : St) (m : M16) : St :=
  let q0 := g s.r0.x s.r1.x s.r2.x s.r3.x m.m0 m.m1
  let q1 := g s.r0.y s.r1.y s.r2.y s.r3.y m.m2 m.m3
  let q2 := g s.r0.z s.r1.z s.r2.z s.r3.z m.m4 m.m5
  let q3 := g s.r0.w s.r1.w s.r2.w s.r3.w m.m6 m.m7
  let p0 := g q0.qa q1.qb q2.qc q3.qd m.m8 m.m9
  let p1 := g q1.qa q2.qb q3.qc q0.qd m.m10 m.m11
  let p2 := g q2.qa q3.qb q0.qc q1.qd m.m12 m.m13
  let p3 := g q3.qa q0.qb q1.qc q2.qd m.m14 m.m15
  ⟨⟨p0.qa, p1.qa, p2.qa, p3.qa⟩,
   ⟨p3.qb, p0.qb, p1.qb, p2.qb⟩,
   ⟨p2.qc, p3.qc, p0.qc, p1.qc⟩,
   ⟨p1.qd, p2.qd, p3.qd, p0.qd⟩⟩

/-- Word `i` of the row-major 16-word state. -/
def stWords (s : St) : Fin 16 → Nat :=
  ![s.r0.x, s.r0.y, s.r0.z, s.r0.w,
    s.r1.x, s.r1.y, s.r1.z, s.r1.w,
    s.r2.x, s.r2.y, s.r2.z, s.r2.w,
    s.r3.x, s.r3.y, s.r3.z, s.r3.w]

/-- Word `i` of a 16-word message block. -/
def mWords (m : M16) : Fin 16 → Nat :=
  ![m.m0, m.m1, m.m2, m.m3, m.m4, m.m5, m.m6, m.m7,
    m.m8, m.m9, m.m10, m.m11, m.m12, m.m13, m.m14, m.m15]

/-- Modelled from the spec: the `G(state, a, b, c, d, mx, my)` mixing
function as the specification writes it, a sequence of in-place updates of
the four state words at indices `a`, `b`, `c`, `d`. -/
def specG (st : Fin 16 → Nat) (a b c d : Fin 16) (mx my : Nat) : Fin 16 → Nat :=
  let st := Function.update st a (wadd (wadd (st a) (st b)) mx)
  let st := Function.update st d (rotr32 (st d ^^^ st a) 16)
  let st := Function.update st c (wadd (st c) (st d))
  let st := Function.update st b (rotr32 (st b ^^^ st c) 12)
  let st := Function.update st a (wadd (wadd (st a) (st b)) my)
  let st := Function.update st d (rotr32 (st d ^^^ st a) 8)
  let st := Function.update st c (wadd (st c) (st d))
  Function.update st b (rotr32 (st b ^^^ st c) 7)

/-- Modelled from the spec: the scalar round, eight `G` invocations in the
specified order — four column mixes then four diagonal mixes. -/
def specRound (st : Fin 16 → Nat) (m : Fin 16 → Nat) : Fin 16 → Nat :=
  let st := specG st 0 4 8 12 (m 0) (m 1)
  let st := specG st 1 5 9 13 (m 2) (m 3)
  let st := specG st 2 6 10 14 (m 4) (m 5)
  let st := specG st 3 7 11 15 (m 6) (m 7)
  let st := specG st 0 5 10 15 (m 8) (m 9)
  let st := specG st 1 6 11 12 (m 10) (m 11)
  let st := specG st 2 7 8 13 (m 12) (m 13)
  specG st 3 4 9 14 (m 14) (m 15)

/-- The sixteen message words of a block as a list, in index order. -/
def mList (m : M16) : List Nat :=
  [m.m0, m.m1, m.m2, m.m3, m.m4, m.m5, m.m6, m.m7,
   m.m8, m.m9, m.m10, m.m11, m.m12, m.m13, m.m14, m.m15]

/-- Little-endian word parse of four consecutive input bytes, from
`word_from_le_bytes` in the source: `input[3] << 24 | input[2] << 16 |
input[1] << 8 | input[0] << 0`. -/
def word_from_le_bytes (input : Nat → Nat) (off : Nat) : Nat :=
  input (off + 3) <<< 24 ||| input (off + 2) <<< 16 |||
    input (off + 1) <<< 8 ||| input (off + 0) <<< 0

/-- Little-endian serialisation of one word to four bytes, from
`word_to_le_bytes` in the source: byte `i` is `(word >> (i << 3)) & 0xff`. -/
def word_to_le_bytes (word : Nat) : List Nat :=
  (List.range 4).map (fun i => (word >>> (i <<< 3)) &&& 0xff)

/-- Little-endian parse of a 32-byte chaining value into 8 words, eight
independent `word_from_le_bytes` applications on a 32-byte buffer. -/
def cv_from_le_bytes (b : List Nat) : List Nat :=
  (List.range 8).map (fun i => word_from_le_bytes (fun k => b.getD k 0) (i <<< 2))

/-- Serialisation of 8 consecutive words to 32 little-endian bytes, from
`words_to_le_bytes` in the source. -/
def words_to_le_bytes (ws : List Nat) : List Nat :=
  (List.range 8).flatMap (fun i => word_to_le_bytes (ws.getD i 0))

/-- The sixteen message words the orchestrator reads for block `j` of chunk
`i`: word `k` is parsed at byte offset `(i << 10) + (j << 6) + (k << 2)`. -/
def blockWords (input : Nat → Nat) (i j : Nat) : List Nat :=
  (List.range 16).map (fun k => word_from_le_bytes input ((i <<< 10) + (j <<< 6) + (k <<< 2)))

/-- Flag word the orchestrator sends for block `j` of a chunk, from the
`if (j == 0) / else if (j == 15) / else` chain in the source. -/
def flagsFor (j : Nat) : Nat :=
  if j = 0 then CHUNK_START else if j = 15 then CHUNK_END else 0

/-- The sixteen state words the orchestrator writes to the hash-state pipe
for block `j` of chunk `i` with current chaining value `cv`: the 8 words of
`cv`, `IV[0..4)`, the low and high counter halves of the chunk index, the
block length, and the flag word. -/
def pipe0Words (cv : List Nat) (i j : Nat) : List Nat :=
  cv ++ IV.take 4 ++ [i &&& 0xffffffff, i >>> 32, BLOCK_LEN, flagsFor j]

/-- One iteration of the compressor kernel: the sixteen state words read
from the first pipe are packed into four `uint4` rows, the sixteen message
words are read from the second pipe, `compress` runs, and the first eight
state words are written back. -/
def compressorRespond (h : List Nat) (m : List Nat) : List Nat :=
  let st : St := ⟨⟨h.getD 0 0, h.getD 1 0, h.getD 2 0, h.getD 3 0⟩,
                  ⟨h.getD 4 0, h.getD 5 0, h.getD 6 0, h.getD 7 0⟩,
                  ⟨h.getD 8 0, h.getD 9 0, h.getD 10 0, h.getD 11 0⟩,
                  ⟨h.getD 12 0, h.getD 13 0, h.getD 14 0, h.getD 15 0⟩⟩
  let mm : M16 := ⟨m.getD 0 0, m.getD 1 0, m.getD 2 0, m.getD 3 0,
                   m.getD 4 0, m.getD 5 0, m.getD 6 0, m.getD 7 0,
                   m.getD 8 0, m.getD 9 0, m.getD 10 0, m.getD 11 0,
                   m.getD 12 0, m.getD 13 0, m.getD 14 0, m.getD 15 0⟩
  let r := (compress st mm).1
  [r.r0.x, r.r0.y, r.r0.z, r.r0.w, r.r1.x, r.r1.y, r.r1.z, r.r1.w]

/-- Chaining value held in the orchestrator's `cv0` buffer for chunk `i`
after `j` blocks have been compressed: `IV` before block 0, and afterwards
the compressor's response to the request for block `j - 1`. -/
def cvAfter (input : Nat → Nat) (i : Nat) : Nat → List Nat
  | 0 => IV
  | j + 1 => compressorRespond (pipe0Words (cvAfter input i j) i j) (blockWords input i j)

/-- Output chaining value of chunk `i`: the chaining value after all 16
blocks of the chunk have been compressed. -/
def chunkCV (input : Nat → Nat) (i : Nat) : List Nat := cvAfter input i 16

/-- The sixteen pipe requests (state words, message words) the orchestrator
issues for chunk `i`, in block order. -/
def chunkRequests (input : Nat → Nat) (i : Nat) : List (List Nat × List Nat) :=
  (List.range 16).map (fun j => (pipe0Words (cvAfter input i j) i j, blockWords input i j))

/-- All pipe requests of the orchestrator kernel, in chunk order. -/
def allRequests (input : Nat → Nat) (N : Nat) : List (List Nat × List Nat) :=
  (List.range N).flatMap (fun i => chunkRequests input i)

/-- Iteration count of the compressor kernel, from `rounds =
(chunk_count << 4)` in the source. -/
def compressorRounds (chunk_count : Nat) : Nat := chunk_count <<< 4

/-- The compressor kernel run over explicit pipe streams: each iteration
consumes 16 words from the state pipe and 16 from the message pipe and
produces 8 output words; returns the concatenated outputs and the
unconsumed remainders of both input streams. -/
def compressorRun : Nat → List Nat → List Nat → List Nat × List Nat × List Nat
  | 0, p0, p1 => ([], p0, p1)
  | n + 1, p0, p1 =>
    let out := compressorRespond (p0.take 16) (p1.take 16)
    let rest := compressorRun n (p0.drop 16) (p1.drop 16)
    (out ++ rest.1, rest.2)

/-- The orchestrator's chunk loop: starting from `mem_idx = 0`, each
iteration writes the 8 chaining-value words of its chunk at word addresses
`(mem_idx << 3) + j` and increments `mem_idx`.  Returns the final `mem_idx`
and the write trace (address, value) in program order after `n` chunks. -/
def leafLoop (input : Nat → Nat) : Nat → Nat × List (Nat × Nat)
  | 0 => (0, [])
  | n + 1 =>
    let prev := leafLoop input n
    (prev.1 + 1,
     prev.2 ++ (List.range 8).map (fun j => ((prev.1 <<< 3) + j, (chunkCV input n).getD j 0)))

/-- Number of scratch words allocated by `hash`: `mem_size` is
`(chunk_count << 3)` words of 4 bytes. -/
def scratchWords (chunk_count : Nat) : Nat := chunk_count <<< 3

/-- Failure kinds of the public entry. -/
inductive HashError where
  | InvalidInput
deriving Repr, DecidableEq

/-- Device-visible outcome of one `hash` invocation: the failure (if any),
the write trace on the scratch buffer, and the final contents of the
32-byte digest buffer. -/
structure HashOut where
  err : Option HashError
  memWrites : List (Nat × Nat)
  digest : List Nat
deriving Repr, DecidableEq

/-- The three entry assertions of `hash` in the source: the input size is
exactly `chunk_count * CHUNK_LEN`, the chunk count is at least `1 << 10`,
and the chunk count has no two bits set. -/
def validInput (i_size chunk_count : Nat) : Prop :=
  i_size = chunk_count * CHUNK_LEN ∧ (1 <<< 10) ≤ chunk_count ∧
    chunk_count &&& (chunk_count - 1) = 0

instance validInput_dec (i_size chunk_count : Nat) : Decidable (validInput i_size chunk_count) :=
  inferInstanceAs (Decidable (_ ∧ _ ∧ _))

/-- The public entry `hash`, embedded as its device-visible effect: the
entry assertions are checked first; on success the orchestrator's leaf pass
runs (the merkle-driver, root-compression and digest-export sections of the
source are commented out, so the digest buffer is never written); on
failure nothing runs. -/
def hash (input : Nat → Nat) (i_size chunk_count : Nat) (digest : List Nat) : HashOut :=
  if validInput i_size chunk_count then
    { err := none, memWrites := (leafLoop input chunk_count).2, digest := digest }
  else
    { err := some HashError.InvalidInput, memWrites := [], digest := digest }

/-- The 32 expected digest bytes of the repository's test
(`src/test/main.cpp`), the upstream BLAKE3 digest of one MiB of `0xFF`
bytes. -/
def expectedDigest : List Nat :=
  [3, 107, 169, 54, 188, 220, 105, 198, 56, 19, 158,
   182, 125, 203, 4, 77, 220, 197, 132, 215, 44, 187,
   125, 130, 161, 92, 234, 112, 223, 45, 212, 205]

end Blake3

-- ===================== theorems =====================

namespace Blake3

/-- The word modulus is positive. -/
theorem M32_pos : 0 < M32 := by norm_num [M32]

/-- The word modulus is `2 ^ 32`. -/
theorem M32_eq : M32 = 2 ^ 32 := by norm_num [M32]

/-- Wrapping addition stays below the word modulus. -/
theorem wadd_lt (a b : Nat) : wadd a b < M32 := Nat.mod_lt _ M32_pos

/-- Left rotation stays below the word modulus. -/
theorem rotl32_lt (x n : Nat) : rotl32 x n < M32 := Nat.mod_lt _ M32_pos

/-- XOR of two in-range words is in range. -/
theorem xor_lt_M32 {a b : Nat} (ha : a < M32) (hb : b < M32) : a ^^^ b < M32 := by
  rw [M32_eq] at *
  exact Nat.xor_lt_two_pow ha hb

/-- Shifting right never increases a natural number. -/
theorem shiftRight_le_self (x n : Nat) : x >>> n ≤ x := by
  rw [Nat.shiftRight_eq_div_pow]
  exact Nat.div_le_self _ _

/-- Right rotation of an in-range word is in range. -/
theorem rotr32_lt {x : Nat} (n : Nat) (hx : x < M32) : rotr32 x n < M32 := by
  have h1 : x >>> n ≤ x := shiftRight_le_self x n
  have h2 : (x <<< (32 - n)) % M32 < M32 := Nat.mod_lt _ M32_pos
  rw [M32_eq] at hx h2 ⊢
  exact Nat.or_lt_two_pow (lt_of_le_of_lt h1 hx) h2

/-- Left rotation by `32 - n` agrees with right rotation by `n` on in-range
words. -/
theorem rotl_eq_rotr {x : Nat} (hx : x < M32) {n : Nat} (hn : n ≤ 32) :
    rotl32 x (32 - n) = rotr32 x n := by
  unfold rotl32 rotr32
  have h32 : 32 - (32 - n) = n := by omega
  rw [h32, M32_eq]
  have hB : x >>> n < 2 ^ 32 := by
    have h1 : x >>> n ≤ x := shiftRight_le_self x n
    have h2 : x < 2 ^ 32 := by rw [← M32_eq]; exact hx
    exact lt_of_le_of_lt h1 h2
  rw [← Nat.and_pow_two_sub_one_eq_mod (x <<< (32 - n) ||| x >>> n) 32]
  rw [Nat.and_comm, Nat.and_or_distrib_left]
  rw [Nat.and_comm (2 ^ 32 - 1) (x <<< (32 - n)), Nat.and_comm (2 ^ 32 - 1) (x >>> n)]
  rw [Nat.and_pow_two_sub_one_eq_mod, Nat.and_pow_two_sub_one_of_lt_two_pow hB]
  exact Nat.or_comm _ _

/-- Lane-level equivalence: the source's left rotations by 16, 20, 24, 25
realise the specification's right rotations by 16, 12, 8, 7, so one lane of
the vectorised mixing equals one scalar `G` quarter-round, provided the `b`
and `d` inputs are in range (the `a` and `c` inputs are wrapped by the first
additions touching them, and message words are only ever added). -/
theorem gcode_eq_g4 (a b c d mx my : Nat) (hb : b < M32) (hd : d < M32) :
    gcode a b c d mx my = g4 a b c d mx my := by
  have r16 : ∀ z : Nat, z < M32 → rotl32 z 16 = rotr32 z 16 := fun z hz =>
    @rotl_eq_rotr z hz 16 (by norm_num)
  have r20 : ∀ z : Nat, z < M32 → rotl32 z 20 = rotr32 z 12 := fun z hz =>
    @rotl_eq_rotr z hz 12 (by norm_num)
  have r24 : ∀ z : Nat, z < M32 → rotl32 z 24 = rotr32 z 8 := fun z hz =>
    @rotl_eq_rotr z hz 8 (by norm_num)
  have r25 : ∀ z : Nat, z < M32 → rotl32 z 25 = rotr32 z 7 := fun z hz =>
    @rotl_eq_rotr z hz 7 (by norm_num)
  simp only [gcode, g4]
  obtain ⟨a1, ha1, ha1lt⟩ : ∃ v, wadd (wadd a b) mx = v ∧ v < M32 := ⟨_, rfl, wadd_lt _ _⟩
  rw [ha1, r16 _ (xor_lt_M32 hd ha1lt)]
  obtain ⟨d1, hd1, hd1lt⟩ : ∃ v, rotr32 (d ^^^ a1) 16 = v ∧ v < M32 :=
    ⟨_, rfl, rotr32_lt _ (xor_lt_M32 hd ha1lt)⟩
  rw [hd1]
  obtain ⟨c1, hc1, hc1lt⟩ : ∃ v, wadd c d1 = v ∧ v < M32 := ⟨_, rfl, wadd_lt _ _⟩
  rw [hc1, r20 _ (xor_lt_M32 hb hc1lt)]
  obtain ⟨b1, hb1, hb1lt⟩ : ∃ v, rotr32 (b ^^^ c1) 12 = v ∧ v < M32 :=
    ⟨_, rfl, rotr32_lt _ (xor_lt_M32 hb hc1lt)⟩
  rw [hb1]
  obtain ⟨a2, ha2, ha2lt⟩ : ∃ v, wadd (wadd a1 b1) my = v ∧ v < M32 := ⟨_, rfl, wadd_lt _ _⟩
  rw [ha2, r24 _ (xor_lt_M32 hd1lt ha2lt)]
  obtain ⟨d2, hd2, hd2lt⟩ : ∃ v, rotr32 (d1 ^^^ a2) 8 = v ∧ v < M32 :=
    ⟨_, rfl, rotr32_lt _ (xor_lt_M32 hd1lt ha2lt)⟩
  rw [hd2]
  obtain ⟨c2, hc2, hc2lt⟩ : ∃ v, wadd c1 d2 = v ∧ v < M32 := ⟨_, rfl, wadd_lt _ _⟩
  rw [hc2, r25 _ (xor_lt_M32 hb1lt hc2lt)]

/-- All four outputs of the scalar quarter-round are in range, given
in-range `b` and `d` inputs. -/
theorem g4_lt (a b c d mx my : Nat) (hb : b < M32) (hd : d < M32) :
    (g4 a b c d mx my).qa < M32 ∧ (g4 a b c d mx my).qb < M32 ∧
      (g4 a b c d mx my).qc < M32 ∧ (g4 a b c d mx my).qd < M32 :=
  ⟨wadd_lt _ _,
   rotr32_lt _ (xor_lt_M32 (rotr32_lt _ (xor_lt_M32 hb (wadd_lt _ _))) (wadd_lt _ _)),
   wadd_lt _ _,
   rotr32_lt _ (xor_lt_M32 (rotr32_lt _ (xor_lt_M32 hd (wadd_lt _ _))) (wadd_lt _ _))⟩

/-- The vectorised round is the quarter-round wiring with the source's lane
operations: the diagonalisation swizzles amount exactly to the diagonal
argument/result wiring. -/
theorem rnd_eq_wire (s : St) (m : M16) : rnd s m = wireRoundWith gcode s m := rfl

/-- Replacing the source's lane operation by the specification's `G` in the
wiring does not change the round, for in-range second and fourth rows. -/
theorem wire_gcode_eq_g4 (s : St) (m : M16)
    (h4 : s.r1.x < M32) (h5 : s.r1.y < M32) (h6 : s.r1.z < M32) (h7 : s.r1.w < M32)
    (h12 : s.r3.x < M32) (h13 : s.r3.y < M32) (h14 : s.r3.z < M32) (h15 : s.r3.w < M32) :
    wireRoundWith gcode s m = wireRoundWith g4 s m := by
  simp only [wireRoundWith]
  rw [gcode_eq_g4 s.r0.x s.r1.x s.r2.x s.r3.x m.m0 m.m1 h4 h12]
  rw [gcode_eq_g4 s.r0.y s.r1.y s.r2.y s.r3.y m.m2 m.m3 h5 h13]
  rw [gcode_eq_g4 s.r0.z s.r1.z s.r2.z s.r3.z m.m4 m.m5 h6 h14]
  rw [gcode_eq_g4 s.r0.w s.r1.w s.r2.w s.r3.w m.m6 m.m7 h7 h15]
  rw [gcode_eq_g4 _ _ _ _ _ _
        (g4_lt s.r0.y s.r1.y s.r2.y s.r3.y m.m2 m.m3 h5 h13).2.1
        (g4_lt s.r0.w s.r1.w s.r2.w s.r3.w m.m6 m.m7 h7 h15).2.2.2]
  rw [gcode_eq_g4 _ _ _ _ _ _
        (g4_lt s.r0.z s.r1.z s.r2.z s.r3.z m.m4 m.m5 h6 h14).2.1
        (g4_lt s.r0.x s.r1.x s.r2.x s.r3.x m.m0 m.m1 h4 h12).2.2.2]
  rw [gcode_eq_g4 _ _ _ _ _ _
        (g4_lt s.r0.w s.r1.w s.r2.w s.r3.w m.m6 m.m7 h7 h15).2.1
        (g4_lt s.r0.y s.r1.y s.r2.y s.r3.y m.m2 m.m3 h5 h13).2.2.2]
  rw [gcode_eq_g4 _ _ _ _ _ _
        (g4_lt s.r0.x s.r1.x s.r2.x s.r3.x m.m0 m.m1 h4 h12).2.1
        (g4_lt s.r0.z s.r1.z s.r2.z s.r3.z m.m4 m.m5 h6 h14).2.2.2]

/-- Evaluation of an explicit 16-entry vector at index 0. -/
theorem v16_0 (w0 w1 w2 w3 w4 w5 w6 w7 w8 w9 w10 w11 w12 w13 w14 w15 : Nat) :
    ![w0, w1, w2, w3, w4, w5, w6, w7, w8, w9, w10, w11, w12, w13, w14, w15] (0 : Fin 16) = w0 := rfl

/-- Evaluation of an explicit 16-entry vector at index 1. -/
theorem v16_1 (w0 w1 w2 w3 w4 w5 w6 w7 w8 w9 w10 w11 w12 w13 w14 w15 : Nat) :
    ![w0, w1, w2, w3, w4, w5, w6, w7, w8, w9, w10, w11, w12, w13, w14, w15] (1 : Fin 16) = w1 := rfl

/-- Evaluation of an explicit 16-entry vector at index 2. -/
theorem v16_2 (w0 w1 w2 w3 w4 w5 w6 w7 w8 w9 w10 w11 w12 w13 w14 w15 : Nat) :
    ![w0, w1, w2, w3, w4, w5, w6, w7, w8, w9, w10, w11, w12, w13, w14, w15] (2 : Fin 16) = w2 := rfl

/-- Evaluation of an explicit 16-entry vector at index 3. -/
theorem v16_3 (w0 w1 w2 w3 w4 w5 w6 w7 w8 w9 w10 w11 w12 w13 w14 w15 : Nat) :
    ![w0, w1, w2, w3, w4, w5, w6, w7, w8, w9, w10, w11, w12, w13, w14, w15] (3 : Fin 16) = w3 := rfl

/-- Evaluation of an explicit 16-entry vector at index 4. -/
theorem v16_4 (w0 w1 w2 w3 w4 w5 w6 w7 w8 w9 w10 w11 w12 w13 w14 w15 : Nat) :
    ![w0, w1, w2, w3, w4, w5, w6, w7, w8, w9, w10, w11, w12, w13, w14, w15] (4 : Fin 16) = w4 := rfl

/-- Evaluation of an explicit 16-entry vector at index 5. -/
theorem v16_5 (w0 w1 w2 w3 w4 w5 w6 w7 w8 w9 w10 w11 w12 w13 w14 w15 : Nat) :
    ![w0, w1, w2, w3, w4, w5, w6, w7, w8, w9, w10, w11, w12, w13, w14, w15] (5 : Fin 16) = w5 := rfl

/-- Evaluation of an explicit 16-entry vector at index 6. -/
theorem v16_6 (w0 w1 w2 w3 w4 w5 w6 w7 w8 w9 w10 w11 w12 w13 w14 w15 : Nat) :
    ![w0, w1, w2, w3, w4, w5, w6, w7, w8, w9, w10, w11, w12, w13, w14, w15] (6 : Fin 16) = w6 := rfl

/-- Evaluation of an explicit 16-entry vector at index 7. -/
theorem v16_7 (w0 w1 w2 w3 w4 w5 w6 w7 w8 w9 w10 w11 w12 w13 w14 w15 : Nat) :
    ![w0, w1, w2, w3, w4, w5, w6, w7, w8, w9, w10, w11, w12, w13, w14, w15] (7 : Fin 16) = w7 := rfl

/-- Evaluation of an explicit 16-entry vector at index 8. -/
theorem v16_8 (w0 w1 w2 w3 w4 w5 w6 w7 w8 w9 w10 w11 w12 w13 w14 w15 : Nat) :
    ![w0, w1, w2, w3, w4, w5, w6, w7, w8, w9, w10, w11, w12, w13, w14, w15] (8 : Fin 16) = w8 := rfl

/-- Evaluation of an explicit 16-entry vector at index 9. -/
theorem v16_9 (w0 w1 w2 w3 w4 w5 w6 w7 w8 w9 w10 w11 w12 w13 w14 w15 : Nat) :
    ![w0, w1, w2, w3, w4, w5, w6, w7, w8, w9, w10, w11, w12, w13, w14, w15] (9 : Fin 16) = w9 := rfl

/-- Evaluation of an explicit 16-entry vector at index 10. -/
theorem v16_10 (w0 w1 w2 w3 w4 w5 w6 w7 w8 w9 w10 w11 w12 w13 w14 w15 : Nat) :
    ![w0, w1, w2, w3, w4, w5, w6, w7, w8, w9, w10, w11, w12, w13, w14, w15] (10 : Fin 16) = w10 := rfl

/-- Evaluation of an explicit 16-entry vector at index 11. -/
theorem v16_11 (w0 w1 w2 w3 w4 w5 w6 w7 w8 w9 w10 w11 w12 w13 w14 w15 : Nat) :
    ![w0, w1, w2, w3, w4, w5, w6, w7, w8, w9, w10, w11, w12, w13, w14, w15] (11 : Fin 16) = w11 := rfl

/-- Evaluation of an explicit 16-entry vector at index 12. -/
theorem v16_12 (w0 w1 w2 w3 w4 w5 w6 w7 w8 w9 w10 w11 w12 w13 w14 w15 : Nat) :
    ![w0, w1, w2, w3, w4, w5, w6, w7, w8, w9, w10, w11, w12, w13, w14, w15] (12 : Fin 16) = w12 := rfl

/-- Evaluation of an explicit 16-entry vector at index 13. -/
theorem v16_13 (w0 w1 w2 w3 w4 w5 w6 w7 w8 w9 w10 w11 w12 w13 w14 w15 : Nat) :
    ![w0, w1, w2, w3, w4, w5, w6, w7, w8, w9, w10, w11, w12, w13, w14, w15] (13 : Fin 16) = w13 := rfl

/-- Evaluation of an explicit 16-entry vector at index 14. -/
theorem v16_14 (w0 w1 w2 w3 w4 w5 w6 w7 w8 w9 w10 w11 w12 w13 w14 w15 : Nat) :
    ![w0, w1, w2, w3, w4, w5, w6, w7, w8, w9, w10, w11, w12, w13, w14, w15] (14 : Fin 16) = w14 := rfl

/-- Evaluation of an explicit 16-entry vector at index 15. -/
theorem v16_15 (w0 w1 w2 w3 w4 w5 w6 w7 w8 w9 w10 w11 w12 w13 w14 w15 : Nat) :
    ![w0, w1, w2, w3, w4, w5, w6, w7, w8, w9, w10, w11, w12, w13, w14, w15] (15 : Fin 16) = w15 := rfl

/-- Effect of the column mix `G(0, 4, 8, 12)` on an explicit state vector. -/
theorem specG_col0 (w0 w1 w2 w3 w4 w5 w6 w7 w8 w9 w10 w11 w12 w13 w14 w15 mx my : Nat) :
    specG ![w0, w1, w2, w3, w4, w5, w6, w7, w8, w9, w10, w11, w12, w13, w14, w15]
        0 4 8 12 mx my =
      ![(g4 w0 w4 w8 w12 mx my).qa, w1, w2, w3,
        (g4 w0 w4 w8 w12 mx my).qb, w5, w6, w7,
        (g4 w0 w4 w8 w12 mx my).qc, w9, w10, w11,
        (g4 w0 w4 w8 w12 mx my).qd, w13, w14, w15] := by
  funext i
  fin_cases i <;> simp [specG, g4, Function.update_apply, v16_0, v16_1, v16_2, v16_3, v16_4, v16_5, v16_6, v16_7, v16_8, v16_9, v16_10, v16_11, v16_12, v16_13, v16_14, v16_15]

/-- Effect of the column mix `G(1, 5, 9, 13)` on an explicit state vector. -/
theorem specG_col1 (w0 w1 w2 w3 w4 w5 w6 w7 w8 w9 w10 w11 w12 w13 w14 w15 mx my : Nat) :
    specG ![w0, w1, w2, w3, w4, w5, w6, w7, w8, w9, w10, w11, w12, w13, w14, w15]
        1 5 9 13 mx my =
      ![w0, (g4 w1 w5 w9 w13 mx my).qa, w2, w3,
        w4, (g4 w1 w5 w9 w13 mx my).qb, w6, w7,
        w8, (g4 w1 w5 w9 w13 mx my).qc, w10, w11,
        w12, (g4 w1 w5 w9 w13 mx my).qd, w14, w15] := by
  funext i
  fin_cases i <;> simp [specG, g4, Function.update_apply, v16_0, v16_1, v16_2, v16_3, v16_4, v16_5, v16_6, v16_7, v16_8, v16_9, v16_10, v16_11, v16_12, v16_13, v16_14, v16_15]

/-- Effect of the column mix `G(2, 6, 10, 14)` on an explicit state vector. -/
theorem specG_col2 (w0 w1 w2 w3 w4 w5 w6 w7 w8 w9 w10 w11 w12 w13 w14 w15 mx my : Nat) :
    specG ![w0, w1, w2, w3, w4, w5, w6, w7, w8, w9, w10, w11, w12, w13, w14, w15]
        2 6 10 14 mx my =
      ![w0, w1, (g4 w2 w6 w10 w14 mx my).qa, w3,
        w4, w5, (g4 w2 w6 w10 w14 mx my).qb, w7,
        w8, w9, (g4 w2 w6 w10 w14 mx my).qc, w11,
        w12, w13, (g4 w2 w6 w10 w14 mx my).qd, w15] := by
  funext i
  fin_cases i <;> simp [specG, g4, Function.update_apply, v16_0, v16_1, v16_2, v16_3, v16_4, v16_5, v16_6, v16_7, v16_8, v16_9, v16_10, v16_11, v16_12, v16_13, v16_14, v16_15]

/-- Effect of the column mix `G(3, 7, 11, 15)` on an explicit state vector. -/
theorem specG_col3 (w0 w1 w2 w3 w4 w5 w6 w7 w8 w9 w10 w11 w12 w13 w14 w15 mx my : Nat) :
    specG ![w0, w1, w2, w3, w4, w5, w6, w7, w8, w9, w10, w11, w12, w13, w14, w15]
        3 7 11 15 mx my =
      ![w0, w1, w2, (g4 w3 w7 w11 w15 mx my).qa,
        w4, w5, w6, (g4 w3 w7 w11 w15 mx my).qb,
        w8, w9, w10, (g4 w3 w7 w11 w15 mx my).qc,
        w12, w13, w14, (g4 w3 w7 w11 w15 mx my).qd] := by
  funext i
  fin_cases i <;> simp [specG, g4, Function.update_apply, v16_0, v16_1, v16_2, v16_3, v16_4, v16_5, v16_6, v16_7, v16_8, v16_9, v16_10, v16_11, v16_12, v16_13, v16_14, v16_15]

/-- Effect of the diagonal mix `G(0, 5, 10, 15)` on an explicit state vector. -/
theorem specG_diag0 (w0 w1 w2 w3 w4 w5 w6 w7 w8 w9 w10 w11 w12 w13 w14 w15 mx my : Nat) :
    specG ![w0, w1, w2, w3, w4, w5, w6, w7, w8, w9, w10, w11, w12, w13, w14, w15]
        0 5 10 15 mx my =
      ![(g4 w0 w5 w10 w15 mx my).qa, w1, w2, w3,
        w4, (g4 w0 w5 w10 w15 mx my).qb, w6, w7,
        w8, w9, (g4 w0 w5 w10 w15 mx my).qc, w11,
        w12, w13, w14, (g4 w0 w5 w10 w15 mx my).qd] := by
  funext i
  fin_cases i <;> simp [specG, g4, Function.update_apply, v16_0, v16_1, v16_2, v16_3, v16_4, v16_5, v16_6, v16_7, v16_8, v16_9, v16_10, v16_11, v16_12, v16_13, v16_14, v16_15]

/-- Effect of the diagonal mix `G(1, 6, 11, 12)` on an explicit state vector. -/
theorem specG_diag1 (w0 w1 w2 w3 w4 w5 w6 w7 w8 w9 w10 w11 w12 w13 w14 w15 mx my : Nat) :
    specG ![w0, w1, w2, w3, w4, w5, w6, w7, w8, w9, w10, w11, w12, w13, w14, w15]
        1 6 11 12 mx my =
      ![w0, (g4 w1 w6 w11 w12 mx my).qa, w2, w3,
        w4, w5, (g4 w1 w6 w11 w12 mx my).qb, w7,
        w8, w9, w10, (g4 w1 w6 w11 w12 mx my).qc,
        (g4 w1 w6 w11 w12 mx my).qd, w13, w14, w15] := by
  funext i
  fin_cases i <;> simp [specG, g4, Function.update_apply, v16_0, v16_1, v16_2, v16_3, v16_4, v16_5, v16_6, v16_7, v16_8, v16_9, v16_10, v16_11, v16_12, v16_13, v16_14, v16_15]

/-- Effect of the diagonal mix `G(2, 7, 8, 13)` on an explicit state vector. -/
theorem specG_diag2 (w0 w1 w2 w3 w4 w5 w6 w7 w8 w9 w10 w11 w12 w13 w14 w15 mx my : Nat) :
    specG ![w0, w1, w2, w3, w4, w5, w6, w7, w8, w9, w10, w11, w12, w13, w14, w15]
        2 7 8 13 mx my =
      ![w0, w1, (g4 w2 w7 w8 w13 mx my).qa, w3,
        w4, w5, w6, (g4 w2 w7 w8 w13 mx my).qb,
        (g4 w2 w7 w8 w13 mx my).qc, w9, w10, w11,
        w12, (g4 w2 w7 w8 w13 mx my).qd, w14, w15] := by
  funext i
  fin_cases i <;> simp [specG, g4, Function.update_apply, v16_0, v16_1, v16_2, v16_3, v16_4, v16_5, v16_6, v16_7, v16_8, v16_9, v16_10, v16_11, v16_12, v16_13, v16_14, v16_15]

/-- Effect of the diagonal mix `G(3, 4, 9, 14)` on an explicit state vector. -/
theorem specG_diag3 (w0 w1 w2 w3 w4 w5 w6 w7 w8 w9 w10 w11 w12 w13 w14 w15 mx my : Nat) :
    specG ![w0, w1, w2, w3, w4, w5, w6, w7, w8, w9, w10, w11, w12, w13, w14, w15]
        3 4 9 14 mx my =
      ![w0, w1, w2, (g4 w3 w4 w9 w14 mx my).qa,
        (g4 w3 w4 w9 w14 mx my).qb, w5, w6, w7,
        w8, (g4 w3 w4 w9 w14 mx my).qc, w10, w11,
        w12, w13, (g4 w3 w4 w9 w14 mx my).qd, w15] := by
  funext i
  fin_cases i <;> simp [specG, g4, Function.update_apply, v16_0, v16_1, v16_2, v16_3, v16_4, v16_5, v16_6, v16_7, v16_8, v16_9, v16_10, v16_11, v16_12, v16_13, v16_14, v16_15]

/-- The quarter-round wiring with the scalar `G` agrees word-for-word with
the specification's round of eight sequential in-place `G` invocations. -/
theorem wire_g4_eq_specRound (s : St) (m : M16) :
    stWords (wireRoundWith g4 s m) = specRound (stWords s) (mWords m) := by
  show stWords (wireRoundWith g4 s m) =
    specRound
      ![s.r0.x, s.r0.y, s.r0.z, s.r0.w, s.r1.x, s.r1.y, s.r1.z, s.r1.w,
        s.r2.x, s.r2.y, s.r2.z, s.r2.w, s.r3.x, s.r3.y, s.r3.z, s.r3.w]
      ![m.m0, m.m1, m.m2, m.m3, m.m4, m.m5, m.m6, m.m7,
        m.m8, m.m9, m.m10, m.m11, m.m12, m.m13, m.m14, m.m15]
  simp only [specRound]
  rw [specG_col0, specG_col1, specG_col2, specG_col3,
    specG_diag0, specG_diag1, specG_diag2, specG_diag3]
  rfl

/-- C3: for every 16-word state (four `uint4` rows, all words 32-bit) and
every 16-word message, the vectorised round `rnd` — column mixing on the
four rows, diagonalisation by intra-row rotations (row 1 left 1, row 2
left 2, row 3 left 3), a second column mixing, and un-diagonalisation —
yields exactly the same 16-word state as the scalar round of the
specification: four column `G` mixes followed by four diagonal `G` mixes,
with all additions wrapping mod `2 ^ 32`. -/
theorem rnd_refines_scalar_round (s : St) (m : M16)
    (h : ∀ i : Fin 16, stWords s i < M32) :
    stWords (rnd s m) = specRound (stWords s) (mWords m) := by
  rw [rnd_eq_wire, wire_gcode_eq_g4 s m (h 4) (h 5) (h 6) (h 7) (h 12) (h 13) (h 14) (h 15)]
  exact wire_g4_eq_specRound s m

/-- Witness for the round equivalence at the all-zero state and message. -/
theorem rnd_refines_scalar_round_witness :
    (∀ i : Fin 16,
      stWords ⟨⟨0, 0, 0, 0⟩, ⟨0, 0, 0, 0⟩, ⟨0, 0, 0, 0⟩, ⟨0, 0, 0, 0⟩⟩ i < M32) ∧
      stWords (rnd ⟨⟨0, 0, 0, 0⟩, ⟨0, 0, 0, 0⟩, ⟨0, 0, 0, 0⟩, ⟨0, 0, 0, 0⟩⟩
          ⟨0, 0, 0, 0, 0, 0, 0, 0, 0, 0, 0, 0, 0, 0, 0, 0⟩) =
        specRound
          (stWords ⟨⟨0, 0, 0, 0⟩, ⟨0, 0, 0, 0⟩, ⟨0, 0, 0, 0⟩, ⟨0, 0, 0, 0⟩⟩)
          (mWords ⟨0, 0, 0, 0, 0, 0, 0, 0, 0, 0, 0, 0, 0, 0, 0, 0⟩) :=
  ⟨by decide, rnd_refines_scalar_round _ _ (by decide)⟩

/-- C2: `compress` applies the round function 7 times with a message
permutation after each of the first 6 rounds (none after the 7th), then
produces the output chaining value `cv_out[i] = state[i] XOR state[i + 8]`
for `i = 0..7`, stored in the first 8 state words; the caller's message
block is mutated into its 6-fold permutation. -/
theorem compress_structure (s : St) (m : M16) :
    (∀ i : Fin 8,
      stWords (compress s m).1 ⟨i.val, by omega⟩ =
        stWords (rnd (roundStep^[6] (s, m)).1 (roundStep^[6] (s, m)).2) ⟨i.val, by omega⟩ ^^^
          stWords (rnd (roundStep^[6] (s, m)).1 (roundStep^[6] (s, m)).2)
            ⟨i.val + 8, by omega⟩) ∧
    (compress s m).2 = permuteM^[6] m := by
  constructor
  · intro i
    fin_cases i <;> rfl
  · rfl

/-- C6: `permute` replaces the 16-word message with
`(msg[MSG_PERMUTATION[0]], ..., msg[MSG_PERMUTATION[15]])`; in particular,
applying it once to `(0, 1, ..., 15)` yields exactly
`(2, 6, 3, 10, 7, 0, 4, 13, 1, 11, 12, 5, 9, 14, 15, 8)`. -/
theorem permute_applies_table :
    (∀ m : M16, mList (permuteM m) = MSG_PERMUTATION.map (fun k => (mList m).getD k 0)) ∧
      mList (permuteM ⟨0, 1, 2, 3, 4, 5, 6, 7, 8, 9, 10, 11, 12, 13, 14, 15⟩) =
        [2, 6, 3, 10, 7, 0, 4, 13, 1, 11, 12, 5, 9, 14, 15, 8] :=
  ⟨fun _ => rfl, rfl⟩

/-- A bitwise OR with a low block is an addition when the high part is a
multiple of the block size. -/
theorem or_eq_add_pow (i : Nat) {a b : Nat} (ha : 2 ^ i ∣ a) (hb : b < 2 ^ i) :
    a ||| b = a + b := by
  obtain ⟨c, rfl⟩ := ha
  rw [← Nat.mul_add_lt_is_or hb c]

/-- Masking with `255` is reduction modulo 256. -/
theorem and255_eq_mod (x : Nat) : x &&& 255 = x % 256 := by
  have h : (255 : Nat) = 2 ^ 8 - 1 := by norm_num
  have h2 : (256 : Nat) = 2 ^ 8 := by norm_num
  rw [h, h2, Nat.and_pow_two_sub_one_eq_mod]

/-- Value of the little-endian parse of four bytes. -/
theorem le_word_val (b0 b1 b2 b3 : Nat) (h0 : b0 < 256) (h1 : b1 < 256) (h2 : b2 < 256) :
    b3 <<< 24 ||| b2 <<< 16 ||| b1 <<< 8 ||| b0 <<< 0 =
      b0 + 256 * b1 + 65536 * b2 + 16777216 * b3 := by
  have s3 : b3 <<< 24 = b3 * 16777216 := by rw [Nat.shiftLeft_eq]
  have s2 : b2 <<< 16 = b2 * 65536 := by rw [Nat.shiftLeft_eq]
  have s1 : b1 <<< 8 = b1 * 256 := by rw [Nat.shiftLeft_eq]
  have s0 : b0 <<< 0 = b0 := by rw [Nat.shiftLeft_eq]; norm_num
  rw [s3, s2, s1, s0]
  have o1 : b3 * 16777216 ||| b2 * 65536 = b3 * 16777216 + b2 * 65536 := by
    refine or_eq_add_pow 24 ⟨b3, ?_⟩ ?_
    · rw [Nat.mul_comm]; norm_num
    · norm_num; omega
  rw [o1]
  have o2 : b3 * 16777216 + b2 * 65536 ||| b1 * 256 =
      b3 * 16777216 + b2 * 65536 + b1 * 256 := by
    refine or_eq_add_pow 16 ⟨256 * b3 + b2, ?_⟩ ?_
    · norm_num; ring
    · norm_num; omega
  rw [o2]
  have o3 : b3 * 16777216 + b2 * 65536 + b1 * 256 ||| b0 =
      b3 * 16777216 + b2 * 65536 + b1 * 256 + b0 := by
    refine or_eq_add_pow 8 ⟨65536 * b3 + 256 * b2 + b1, ?_⟩ ?_
    · norm_num; ring
    · omega
  rw [o3]
  omega

/-- Unfolded form of the byte serialisation. -/
theorem word_to_le_bytes_expand (w : Nat) :
    word_to_le_bytes w =
      [w &&& 255, (w >>> 8) &&& 255, (w >>> 16) &&& 255, (w >>> 24) &&& 255] := rfl

/-- Byte extraction from the additive form of a word. -/
theorem word_to_le_of_val (b0 b1 b2 b3 : Nat)
    (h0 : b0 < 256) (h1 : b1 < 256) (h2 : b2 < 256) (h3 : b3 < 256) :
    word_to_le_bytes (b0 + 256 * b1 + 65536 * b2 + 16777216 * b3) = [b0, b1, b2, b3] := by
  have sr8 : ∀ w : Nat, w >>> 8 = w / 256 := fun w => by
    rw [Nat.shiftRight_eq_div_pow]
  have sr16 : ∀ w : Nat, w >>> 16 = w / 65536 := fun w => by
    rw [Nat.shiftRight_eq_div_pow]
  have sr24 : ∀ w : Nat, w >>> 24 = w / 16777216 := fun w => by
    rw [Nat.shiftRight_eq_div_pow]
  rw [word_to_le_bytes_expand, sr8, sr16, sr24]
  simp only [and255_eq_mod, List.cons.injEq, and_true]
  omega

/-- Round-trip of one word through the codec, in the exact shape the parse
produces. -/
theorem word_codec_rt (b0 b1 b2 b3 : Nat)
    (h0 : b0 < 256) (h1 : b1 < 256) (h2 : b2 < 256) (h3 : b3 < 256) :
    word_to_le_bytes (b3 <<< 24 ||| b2 <<< 16 ||| b1 <<< 8 ||| b0 <<< 0) = [b0, b1, b2, b3] := by
  rw [le_word_val b0 b1 b2 b3 h0 h1 h2]
  exact word_to_le_of_val b0 b1 b2 b3 h0 h1 h2 h3

/-- C7: the word codec round-trips: for every 32-byte buffer, serialising
with `word_to_le_bytes` the 8 words obtained by little-endian parsing with
`word_from_le_bytes` reproduces the buffer exactly. -/
theorem word_codec_roundtrip (b : List Nat) (hl : b.length = 32)
    (hb : ∀ x ∈ b, x < 256) :
    words_to_le_bytes (cv_from_le_bytes b) = b := by
  rcases b with _ | ⟨b0, b⟩
  · simp at hl
  rcases b with _ | ⟨b1, b⟩
  · simp at hl
  rcases b with _ | ⟨b2, b⟩
  · simp at hl
  rcases b with _ | ⟨b3, b⟩
  · simp at hl
  rcases b with _ | ⟨b4, b⟩
  · simp at hl
  rcases b with _ | ⟨b5, b⟩
  · simp at hl
  rcases b with _ | ⟨b6, b⟩
  · simp at hl
  rcases b with _ | ⟨b7, b⟩
  · simp at hl
  rcases b with _ | ⟨b8, b⟩
  · simp at hl
  rcases b with _ | ⟨b9, b⟩
  · simp at hl
  rcases b with _ | ⟨b10, b⟩
  · simp at hl
  rcases b with _ | ⟨b11, b⟩
  · simp at hl
  rcases b with _ | ⟨b12, b⟩
  · simp at hl
  rcases b with _ | ⟨b13, b⟩
  · simp at hl
  rcases b with _ | ⟨b14, b⟩
  · simp at hl
  rcases b with _ | ⟨b15, b⟩
  · simp at hl
  rcases b with _ | ⟨b16, b⟩
  · simp at hl
  rcases b with _ | ⟨b17, b⟩
  · simp at hl
  rcases b with _ | ⟨b18, b⟩
  · simp at hl
  rcases b with _ | ⟨b19, b⟩
  · simp at hl
  rcases b with _ | ⟨b20, b⟩
  · simp at hl
  rcases b with _ | ⟨b21, b⟩
  · simp at hl
  rcases b with _ | ⟨b22, b⟩
  · simp at hl
  rcases b with _ | ⟨b23, b⟩
  · simp at hl
  rcases b with _ | ⟨b24, b⟩
  · simp at hl
  rcases b with _ | ⟨b25, b⟩
  · simp at hl
  rcases b with _ | ⟨b26, b⟩
  · simp at hl
  rcases b with _ | ⟨b27, b⟩
  · simp at hl
  rcases b with _ | ⟨b28, b⟩
  · simp at hl
  rcases b with _ | ⟨b29, b⟩
  · simp at hl
  rcases b with _ | ⟨b30, b⟩
  · simp at hl
  rcases b with _ | ⟨b31, b⟩
  · simp at hl
  simp at hl
  subst hl
  have h0 : b0 < 256 := hb b0 (by simp)
  have h1 : b1 < 256 := hb b1 (by simp)
  have h2 : b2 < 256 := hb b2 (by simp)
  have h3 : b3 < 256 := hb b3 (by simp)
  have h4 : b4 < 256 := hb b4 (by simp)
  have h5 : b5 < 256 := hb b5 (by simp)
  have h6 : b6 < 256 := hb b6 (by simp)
  have h7 : b7 < 256 := hb b7 (by simp)
  have h8 : b8 < 256 := hb b8 (by simp)
  have h9 : b9 < 256 := hb b9 (by simp)
  have h10 : b10 < 256 := hb b10 (by simp)
  have h11 : b11 < 256 := hb b11 (by simp)
  have h12 : b12 < 256 := hb b12 (by simp)
  have h13 : b13 < 256 := hb b13 (by simp)
  have h14 : b14 < 256 := hb b14 (by simp)
  have h15 : b15 < 256 := hb b15 (by simp)
  have h16 : b16 < 256 := hb b16 (by simp)
  have h17 : b17 < 256 := hb b17 (by simp)
  have h18 : b18 < 256 := hb b18 (by simp)
  have h19 : b19 < 256 := hb b19 (by simp)
  have h20 : b20 < 256 := hb b20 (by simp)
  have h21 : b21 < 256 := hb b21 (by simp)
  have h22 : b22 < 256 := hb b22 (by simp)
  have h23 : b23 < 256 := hb b23 (by simp)
  have h24 : b24 < 256 := hb b24 (by simp)
  have h25 : b25 < 256 := hb b25 (by simp)
  have h26 : b26 < 256 := hb b26 (by simp)
  have h27 : b27 < 256 := hb b27 (by simp)
  have h28 : b28 < 256 := hb b28 (by simp)
  have h29 : b29 < 256 := hb b29 (by simp)
  have h30 : b30 < 256 := hb b30 (by simp)
  have h31 : b31 < 256 := hb b31 (by simp)
  show word_to_le_bytes (b3 <<< 24 ||| b2 <<< 16 ||| b1 <<< 8 ||| b0 <<< 0) ++
      (word_to_le_bytes (b7 <<< 24 ||| b6 <<< 16 ||| b5 <<< 8 ||| b4 <<< 0) ++
      (word_to_le_bytes (b11 <<< 24 ||| b10 <<< 16 ||| b9 <<< 8 ||| b8 <<< 0) ++
      (word_to_le_bytes (b15 <<< 24 ||| b14 <<< 16 ||| b13 <<< 8 ||| b12 <<< 0) ++
      (word_to_le_bytes (b19 <<< 24 ||| b18 <<< 16 ||| b17 <<< 8 ||| b16 <<< 0) ++
      (word_to_le_bytes (b23 <<< 24 ||| b22 <<< 16 ||| b21 <<< 8 ||| b20 <<< 0) ++
      (word_to_le_bytes (b27 <<< 24 ||| b26 <<< 16 ||| b25 <<< 8 ||| b24 <<< 0) ++
      (word_to_le_bytes (b31 <<< 24 ||| b30 <<< 16 ||| b29 <<< 8 ||| b28 <<< 0) ++ []))))))) =
    [b0, b1, b2, b3, b4, b5, b6, b7, b8, b9, b10, b11, b12, b13, b14, b15, b16, b17, b18, b19, b20, b21, b22, b23, b24, b25, b26, b27, b28, b29, b30, b31]
  rw [word_codec_rt b0 b1 b2 b3 h0 h1 h2 h3]
  rw [word_codec_rt b4 b5 b6 b7 h4 h5 h6 h7]
  rw [word_codec_rt b8 b9 b10 b11 h8 h9 h10 h11]
  rw [word_codec_rt b12 b13 b14 b15 h12 h13 h14 h15]
  rw [word_codec_rt b16 b17 b18 b19 h16 h17 h18 h19]
  rw [word_codec_rt b20 b21 b22 b23 h20 h21 h22 h23]
  rw [word_codec_rt b24 b25 b26 b27 h24 h25 h26 h27]
  rw [word_codec_rt b28 b29 b30 b31 h28 h29 h30 h31]
  rfl

/-- Witness for the codec round-trip at the all-zero 32-byte buffer. -/
theorem word_codec_roundtrip_witness :
    (List.replicate 32 0).length = 32 ∧ (∀ x ∈ List.replicate 32 0, x < 256) ∧
      words_to_le_bytes (cv_from_le_bytes (List.replicate 32 0)) =
        List.replicate 32 0 :=
  ⟨by decide, by decide, word_codec_roundtrip _ (by decide) (by decide)⟩

/-- Entry `j` of a mapped range list. -/
theorem getD_range_map {α : Type} (f : Nat → α) (n j : Nat) (d : α) (hj : j < n) :
    ((List.range n).map f).getD j d = f j := by
  rw [List.getD_eq_getElem?_getD, List.getElem?_map, List.getElem?_range hj]
  rfl

/-- C4: the request the orchestrator issues for block `j` of chunk `i`
carries the current chaining value (which is `IV` before block 0 and the
compressor's response to the previous block's request afterwards), then
`IV[0..4)`, the counter halves `i mod 2^32` and `i div 2^32`, the block
length 64, and flags that are exactly `CHUNK_START` for `j = 0`, exactly
`CHUNK_END` for `j = 15`, and exactly 0 otherwise. -/
theorem chunk_block_requests (input : Nat → Nat) (i j : Nat) (hj : j < 16) :
    (chunkRequests input i).getD j ([], []) =
      (cvAfter input i j ++ IV.take 4 ++
        [i % 4294967296, i / 4294967296, 64,
          if j = 0 then CHUNK_START else if j = 15 then CHUNK_END else 0],
        blockWords input i j) ∧
      cvAfter input i 0 = IV ∧
      cvAfter input i (j + 1) =
        compressorRespond (pipe0Words (cvAfter input i j) i j) (blockWords input i j) := by
  refine ⟨?_, rfl, rfl⟩
  unfold chunkRequests
  rw [getD_range_map _ 16 j _ hj]
  have hmask : i &&& 0xffffffff = i % 4294967296 := by
    have h : (0xffffffff : Nat) = 2 ^ 32 - 1 := by norm_num
    rw [h, Nat.and_pow_two_sub_one_eq_mod]
  have hdiv : i >>> 32 = i / 4294967296 := by
    rw [Nat.shiftRight_eq_div_pow]
  unfold pipe0Words flagsFor
  rw [hmask, hdiv]
  rfl

/-- Witness for the request-structure theorem at chunk 0, block 0, on the
all-zero input. -/
theorem chunk_block_requests_witness :
    (0 : Nat) < 16 ∧
      ((chunkRequests (fun _ => 0) 0).getD 0 ([], []) =
        (cvAfter (fun _ => 0) 0 0 ++ IV.take 4 ++
          [0 % 4294967296, 0 / 4294967296, 64,
            if (0 : Nat) = 0 then CHUNK_START else if (0 : Nat) = 15 then CHUNK_END else 0],
          blockWords (fun _ => 0) 0 0) ∧
        cvAfter (fun _ => 0) 0 0 = IV ∧
        cvAfter (fun _ => 0) 0 1 =
          compressorRespond (pipe0Words (cvAfter (fun _ => 0) 0 0) 0 0)
            (blockWords (fun _ => 0) 0 0)) :=
  ⟨by norm_num, chunk_block_requests (fun _ => 0) 0 0 (by norm_num)⟩

/-- The digest buffer is returned unchanged by every invocation of `hash`:
the merkle-driver, root-compression and digest-export sections are
commented out in the source, so no kernel ever writes to it. -/
theorem hash_digest_unchanged (input : Nat → Nat) (i_size chunk_count : Nat) (d : List Nat) :
    (hash input i_size chunk_count d).digest = d := by
  unfold hash
  split <;> rfl

/-- C1: at the repository's own test input — one MiB of `0xFF` bytes, 1024
chunks, digest buffer zero-initialised — the call succeeds but leaves the
digest buffer untouched, so the buffer does not hold the expected BLAKE3
digest `03 6B A9 36 ...` asserted by `src/test/main.cpp`. -/
theorem hash_test_digest_never_written :
    (hash (fun _ => 255) 1048576 1024 (List.replicate 32 0)).err = none ∧
      (hash (fun _ => 255) 1048576 1024 (List.replicate 32 0)).digest =
        List.replicate 32 0 ∧
      List.replicate 32 0 ≠ expectedDigest :=
  ⟨by decide, hash_digest_unchanged _ _ _ _, by decide⟩

/-- A positive number has no two bits set exactly when it is a power of
two; this is the `chunk_count & (chunk_count - 1)` test of the source. -/
theorem pow2_iff_and_pred (n : Nat) (hn : 0 < n) :
    n &&& (n - 1) = 0 ↔ ∃ k, n = 2 ^ k := by
  constructor
  · intro h
    induction n using Nat.strong_induction_on with
    | _ n ih =>
      rcases Nat.even_or_odd n with he | ho
      · obtain ⟨m, rfl⟩ := he
        have hm : 0 < m := by omega
        have hstep : (m + m) / 2 &&& (m + m - 1) / 2 = 0 := by
          rw [← Nat.and_div_two, h]
        have e1 : (m + m) / 2 = m := by omega
        have e2 : (m + m - 1) / 2 = m - 1 := by omega
        rw [e1, e2] at hstep
        obtain ⟨k, hk⟩ := ih m (by omega) hm hstep
        exact ⟨k + 1, by rw [hk]; ring⟩
      · by_cases h1 : n = 1
        · exact ⟨0, by simp [h1]⟩
        · obtain ⟨m, hm⟩ := ho
          have hmpos : 0 < m := by omega
          have hstep : n / 2 &&& (n - 1) / 2 = 0 := by
            rw [← Nat.and_div_two, h]
          have e1 : n / 2 = m := by omega
          have e2 : (n - 1) / 2 = m := by omega
          rw [e1, e2, Nat.and_self] at hstep
          omega
  · rintro ⟨k, rfl⟩
    rw [Nat.and_pow_two_sub_one_eq_mod]
    exact Nat.mod_self _

/-- C5 counterexample: with input length 2048 and chunk count 1024 the
entry raises `InvalidInput`, although the input length is a multiple of
1024, the chunk count is the power of two `2 ^ 10`, and the chunk count is
not below 1024 — so "fails iff length not a multiple of 1024, or chunk
count not a power of two, or chunk count below 1024" is refuted. -/
theorem hash_validation_counterexample :
    (hash (fun _ => 0) 2048 1024 (List.replicate 32 0)).err = some HashError.InvalidInput ∧
      2048 % 1024 = 0 ∧ 1024 = 2 ^ 10 ∧ ¬(1024 < 1024) :=
  ⟨by decide, by norm_num, by norm_num, by norm_num⟩

/-- C5 amended: `hash` raises `InvalidInput`, synchronously at entry with
no compression work and no scratch write, exactly when the input length
differs from `chunk_count * 1024`, or the chunk count is not a power of
two, or the chunk count is below 1024; the digest buffer is unchanged on
every path, in particular on every failure path. -/
theorem hash_validation_amended (input : Nat → Nat) (i_size chunk_count : Nat) (d : List Nat) :
    ((hash input i_size chunk_count d).err = some HashError.InvalidInput ↔
      (i_size ≠ chunk_count * 1024 ∨ (¬ ∃ k, chunk_count = 2 ^ k) ∨ chunk_count < 1024)) ∧
      ((hash input i_size chunk_count d).err = some HashError.InvalidInput →
        (hash input i_size chunk_count d).memWrites = []) ∧
      (hash input i_size chunk_count d).digest = d := by
  have hCL : CHUNK_LEN = 1024 := rfl
  have h10 : (1 <<< 10 : Nat) = 1024 := rfl
  refine ⟨?_, ?_, ?_⟩
  · by_cases hv : validInput i_size chunk_count
    · rw [hash, if_pos hv]
      obtain ⟨hA, hB, hC⟩ := hv
      rw [hCL] at hA
      rw [h10] at hB
      simp only [reduceCtorEq, false_iff]
      push_neg
      refine ⟨hA, ?_, by omega⟩
      exact (pow2_iff_and_pred chunk_count (by omega)).mp hC
    · rw [hash, if_neg hv]
      simp only [Option.some.injEq, true_iff]
      unfold validInput at hv
      rw [hCL, h10] at hv
      by_cases hA : i_size = chunk_count * 1024
      · by_cases hsmall : chunk_count < 1024
        · exact Or.inr (Or.inr hsmall)
        · refine Or.inr (Or.inl ?_)
          rintro ⟨k, rfl⟩
          exact hv ⟨hA, by omega, by
            rw [Nat.and_pow_two_sub_one_eq_mod]; exact Nat.mod_self _⟩
      · exact Or.inl hA
  · intro h
    by_cases hv : validInput i_size chunk_count
    · rw [hash, if_pos hv] at h
      exact absurd h (by simp)
    · rw [hash, if_neg hv]
  · exact hash_digest_unchanged input i_size chunk_count d

/-- The word parse depends only on the four bytes it reads. -/
theorem word_from_le_bytes_congr {f g : Nat → Nat} {off : Nat}
    (h : ∀ k, off ≤ k → k < off + 4 → f k = g k) :
    word_from_le_bytes f off = word_from_le_bytes g off := by
  unfold word_from_le_bytes
  rw [h (off + 3) (by omega) (by omega), h (off + 2) (by omega) (by omega),
    h (off + 1) (by omega) (by omega), h (off + 0) (by omega) (by omega)]

/-- The message words of block `j` of chunk `i` depend only on the bytes of
chunk `i`. -/
theorem blockWords_congr {f g : Nat → Nat} {i j : Nat} (hj : j < 16)
    (h : ∀ k, k < 1024 * (i + 1) → f k = g k) :
    blockWords f i j = blockWords g i j := by
  unfold blockWords
  refine List.map_congr_left ?_
  intro k hk
  rw [List.mem_range] at hk
  refine word_from_le_bytes_congr ?_
  intro b hb1 hb2
  refine h b ?_
  have e10 : i <<< 10 = i * 1024 := by rw [Nat.shiftLeft_eq]
  have e6 : j <<< 6 = j * 64 := by rw [Nat.shiftLeft_eq]
  have e2 : k <<< 2 = k * 4 := by rw [Nat.shiftLeft_eq]
  rw [e10, e6, e2] at hb2
  omega

/-- The chaining value after `j` blocks depends only on the bytes of the
chunk. -/
theorem cvAfter_congr {f g : Nat → Nat} {i : Nat}
    (h : ∀ k, k < 1024 * (i + 1) → f k = g k) :
    ∀ j, j ≤ 16 → cvAfter f i j = cvAfter g i j := by
  intro j
  induction j with
  | zero => intro _; rfl
  | succ j ih =>
    intro hj
    show compressorRespond _ _ = compressorRespond _ _
    rw [ih (by omega), blockWords_congr (by omega) h]

/-- The whole leaf pass depends only on the first `1024 * N` input bytes. -/
theorem leafLoop_congr {f g : Nat → Nat} (N : Nat)
    (h : ∀ k, k < 1024 * N → f k = g k) :
    leafLoop f N = leafLoop g N := by
  induction N with
  | zero => rfl
  | succ N ih =>
    have hN : ∀ k, k < 1024 * N → f k = g k := fun k hk => h k (by omega)
    unfold leafLoop
    rw [ih hN]
    have hcv : chunkCV f N = chunkCV g N :=
      cvAfter_congr (fun k hk => h k hk) 16 (by omega)
    rw [hcv]

/-- C8: `hash` is deterministic and depends only on the input bytes it may
read: two invocations whose input buffers agree on the first `i_size` bytes
and whose size, chunk-count and digest-buffer arguments are equal produce
identical device-visible results (same failure, same scratch writes, same
digest-buffer contents). -/
theorem hash_deterministic (f g : Nat → Nat) (i_size chunk_count : Nat) (d : List Nat)
    (h : ∀ k, k < i_size → f k = g k) :
    hash f i_size chunk_count d = hash g i_size chunk_count d := by
  unfold hash
  by_cases hv : validInput i_size chunk_count
  · rw [if_pos hv, if_pos hv]
    have hsz : i_size = chunk_count * 1024 := hv.1
    have hw : (leafLoop f chunk_count).2 = (leafLoop g chunk_count).2 := by
      rw [leafLoop_congr chunk_count (fun k hk => h k (by omega))]
    rw [hw]
  · rw [if_neg hv, if_neg hv]

/-- Witness for determinism: the two invocations coincide at a concrete
input. -/
theorem hash_deterministic_witness :
    (∀ k, k < 0 → (fun _ => (0 : Nat)) k = (fun _ => (0 : Nat)) k) ∧
      hash (fun _ => (0 : Nat)) 0 0 [] = hash (fun _ => (0 : Nat)) 0 0 [] :=
  ⟨fun _ _ => rfl, hash_deterministic _ _ 0 0 [] (fun _ _ => rfl)⟩

/-- The orchestrator's `mem_idx` equals the number of chunks processed so
far, so the write of chunk `i` happens with `mem_idx = i`. -/
theorem leafLoop_idx (input : Nat → Nat) (N : Nat) : (leafLoop input N).1 = N := by
  induction N with
  | zero => rfl
  | succ N ih => simp [leafLoop, ih]

/-- Closed form of the leaf pass's write trace: chunk `i` contributes the
eight writes `(8 i + j, chunkCV i [j])`, in chunk order. -/
theorem leafLoop_writes (input : Nat → Nat) (N : Nat) :
    (leafLoop input N).2 =
      (List.range N).flatMap
        (fun i => (List.range 8).map (fun j => (8 * i + j, (chunkCV input i).getD j 0))) := by
  induction N with
  | zero => rfl
  | succ N ih =>
    have e : N <<< 3 = 8 * N := by rw [Nat.shiftLeft_eq]; ring
    simp only [leafLoop]
    rw [ih, leafLoop_idx, List.range_succ N, List.flatMap_append]
    simp only [List.flatMap_cons, List.flatMap_nil, List.append_nil]
    rw [e]

/-- Number of indices `j < n` with `c + j = a`. -/
theorem countP_range_shift (c a n : Nat) :
    (List.range n).countP (fun j => c + j == a) = if c ≤ a ∧ a < c + n then 1 else 0 := by
  induction n with
  | zero =>
    simp only [List.range_zero, List.countP_nil]
    rw [if_neg (by omega)]
  | succ n ih =>
    rw [List.range_succ n, List.countP_append, ih]
    simp only [List.countP_cons, List.countP_nil, beq_iff_eq]
    split_ifs <;> omega

/-- Each scratch address receives exactly one leaf-pass write when it lies
in the leaf region, and none otherwise. -/
theorem leafWrites_countP (input : Nat → Nat) (N a : Nat) :
    ((List.range N).flatMap
        (fun i => (List.range 8).map (fun j => (8 * i + j, (chunkCV input i).getD j 0)))).countP
        (fun p => p.1 == a) =
      if a < 8 * N then 1 else 0 := by
  induction N with
  | zero =>
    simp only [List.range_zero, List.flatMap_nil, List.countP_nil]
    rw [if_neg (by omega)]
  | succ N ih =>
    rw [List.range_succ N, List.flatMap_append, List.countP_append, ih]
    simp only [List.flatMap_cons, List.flatMap_nil, List.append_nil, List.countP_map]
    have hc : ((fun p : Nat × Nat => p.1 == a) ∘
        fun j => (8 * N + j, (chunkCV input N).getD j 0)) = fun j => 8 * N + j == a := rfl
    rw [hc, countP_range_shift (8 * N) a 8]
    split_ifs <;> omega

/-- C9: the scratch buffer holds 8 words per chunk, `mem_idx` equals the
chunk index at the moment of that chunk's write, the leaf pass's write
trace is exactly one batch of eight writes `(8 i + j, chunkCV i [j])` per
chunk in chunk order, and every address of the leaf region is written
exactly once (the parent passes of the merkle driver are commented out, so
no later writes touch the region at all). -/
theorem leaf_pass_single_write (input : Nat → Nat) (N a : Nat) (ha : a < 8 * N) :
    scratchWords N = 8 * N ∧
      (leafLoop input N).1 = N ∧
      (leafLoop input N).2 =
        (List.range N).flatMap
          (fun i => (List.range 8).map (fun j => (8 * i + j, (chunkCV input i).getD j 0))) ∧
      ((leafLoop input N).2.filter (fun p => p.1 == a)).length = 1 := by
  refine ⟨?_, leafLoop_idx input N, leafLoop_writes input N, ?_⟩
  · unfold scratchWords
    rw [Nat.shiftLeft_eq]
    ring
  · rw [← List.countP_eq_length_filter, leafLoop_writes, leafWrites_countP, if_pos ha]

/-- Witness for the single-write theorem at one chunk, address 0. -/
theorem leaf_pass_single_write_witness :
    (0 : Nat) < 8 * 1 ∧
      (scratchWords 1 = 8 * 1 ∧
        (leafLoop (fun _ => 0) 1).1 = 1 ∧
        (leafLoop (fun _ => 0) 1).2 =
          (List.range 1).flatMap
            (fun i =>
              (List.range 8).map (fun j => (8 * i + j, (chunkCV (fun _ => 0) i).getD j 0))) ∧
        ((leafLoop (fun _ => 0) 1).2.filter (fun p => p.1 == 0)).length = 1) :=
  ⟨by norm_num, leaf_pass_single_write (fun _ => 0) 1 0 (by norm_num)⟩

/-- Every chaining value travelling through the pipes is 8 words long. -/
theorem cvAfter_length (input : Nat → Nat) (i j : Nat) : (cvAfter input i j).length = 8 := by
  cases j with
  | zero => rfl
  | succ j => rfl

/-- Shape of every orchestrator request: 16 state words, 16 message words,
8 response words. -/
theorem allRequests_fmt (input : Nat → Nat) (N : Nat) :
    ∀ r ∈ allRequests input N,
      r.1.length = 16 ∧ r.2.length = 16 ∧ (compressorRespond r.1 r.2).length = 8 := by
  intro r hr
  unfold allRequests at hr
  rw [List.mem_flatMap] at hr
  obtain ⟨i, _, hri⟩ := hr
  unfold chunkRequests at hri
  rw [List.mem_map] at hri
  obtain ⟨j, _, rfl⟩ := hri
  refine ⟨?_, ?_, rfl⟩
  · simp [pipe0Words, cvAfter_length, IV]
  · simp [blockWords]

/-- The orchestrator issues 16 requests per chunk. -/
theorem allRequests_length (input : Nat → Nat) (N : Nat) :
    (allRequests input N).length = N * 16 := by
  induction N with
  | zero => rfl
  | succ N ih =>
    unfold allRequests at ih ⊢
    rw [List.range_succ N, List.flatMap_append, List.length_append, ih]
    simp only [List.flatMap_cons, List.flatMap_nil, List.append_nil]
    have : (chunkRequests input N).length = 16 := by
      unfold chunkRequests
      simp
    rw [this]
    ring

/-- Running the compressor for exactly one iteration per request over the
concatenated pipe streams consumes both streams completely and produces
exactly the concatenated responses. -/
theorem compressorRun_spec (reqs : List (List Nat × List Nat))
    (h : ∀ r ∈ reqs, r.1.length = 16 ∧ r.2.length = 16) :
    compressorRun reqs.length (reqs.flatMap (fun r => r.1)) (reqs.flatMap (fun r => r.2)) =
      (reqs.flatMap (fun r => compressorRespond r.1 r.2), [], []) := by
  induction reqs with
  | nil => rfl
  | cons r rs ih =>
    have hr := h r (List.mem_cons_self r rs)
    have hrs : ∀ x ∈ rs, x.1.length = 16 ∧ x.2.length = 16 := fun x hx =>
      h x (List.mem_cons_of_mem r hx)
    simp only [List.flatMap_cons, List.length_cons, compressorRun]
    have t0 : (r.1 ++ rs.flatMap (fun r => r.1)).take 16 = r.1 := by
      rw [← hr.1]
      exact List.take_left _ _
    have d0 : (r.1 ++ rs.flatMap (fun r => r.1)).drop 16 = rs.flatMap (fun r => r.1) := by
      rw [← hr.1]
      exact List.drop_left _ _
    have t1 : (r.2 ++ rs.flatMap (fun r => r.2)).take 16 = r.2 := by
      rw [← hr.2]
      exact List.take_left _ _
    have d1 : (r.2 ++ rs.flatMap (fun r => r.2)).drop 16 = rs.flatMap (fun r => r.2) := by
      rw [← hr.2]
      exact List.drop_left _ _
    rw [t0, d0, t1, d1, ih hrs]

/-- C10: the compressor kernel executes exactly `chunk_count * 16`
iterations, which equals the number of requests the orchestrator issues;
every request carries 16 state words and 16 message words and every
response 8 chaining-value words; and running the compressor for its
programmed iteration count over the orchestrator's concatenated pipe
streams consumes both streams exactly (no pending unmatched read or write)
and returns exactly the per-request responses the orchestrator reads
back. -/
theorem kernels_pipe_matched (input : Nat → Nat) (N : Nat) :
    compressorRounds N = N * 16 ∧
      (allRequests input N).length = compressorRounds N ∧
      (∀ r ∈ allRequests input N,
        r.1.length = 16 ∧ r.2.length = 16 ∧ (compressorRespond r.1 r.2).length = 8) ∧
      compressorRun (compressorRounds N)
          ((allRequests input N).flatMap (fun r => r.1))
          ((allRequests input N).flatMap (fun r => r.2)) =
        ((allRequests input N).flatMap (fun r => compressorRespond r.1 r.2), [], []) := by
  have hcr : compressorRounds N = N * 16 := by
    unfold compressorRounds
    rw [Nat.shiftLeft_eq]
  have hlen : compressorRounds N = (allRequests input N).length := by
    rw [hcr, allRequests_length]
  refine ⟨hcr, ?_, allRequests_fmt input N, ?_⟩
  · rw [hcr]
    exact allRequests_length input N
  · rw [hlen]
    exact compressorRun_spec _ (fun r hr =>
      ⟨(allRequests_fmt input N r hr).1, (allRequests_fmt input N r hr).2.1⟩)

end Blake3
